import Mathlib

/-!
Shallow embedding of the Quantum Tic-Tac-Toe match engine
(`src/townService/src/town/games/QuantumTicTacToeGame.ts`, primary variant:
`_join`, `_leave`, `_validateMove`, `_getBoardWinner`, `_isBoardWon`,
`applyMove`, `_checkForWins`, `_checkForGameEnding`) and of the board display
reconstruction in the frontend controller
(`src/frontend/src/classes/interactable/QuantumTicTacToeAreaController.ts`,
`_updateFrom`).

State mutation is modelled by explicit state passing.  Operations return
`Except (GameError × QState) QState`: a thrown `InvalidParametersError`
is an `error` value carrying the state of the match object at the moment
of the throw, so that atomicity (the thrown-state equals the entry state)
is a provable property rather than an artifact of the embedding.
-/

namespace QuantumTicTacToe

/-- The two game pieces. -/
inductive Piece where
  | X
  | O
deriving DecidableEq

/-- The three boards of a quantum match ('A' | 'B' | 'C'). -/
inductive QBoard where
  | A
  | B
  | C
deriving DecidableEq

instance : Fintype QBoard where
  elems := {QBoard.A, QBoard.B, QBoard.C}
  complete := by intro b; cases b <;> decide

instance : Fintype Piece where
  elems := {Piece.X, Piece.O}
  complete := by intro p; cases p <;> decide

/-- One recorded placement (`QuantumTicTacToeMove`):
`{board, row, col, gamePiece}`. -/
structure QMove where
  board : QBoard
  row : Fin 3
  col : Fin 3
  gamePiece : Piece
deriving DecidableEq

/-- Game status (`GameStatus`). -/
inductive GameStatus where
  | WAITING_TO_START
  | IN_PROGRESS
  | OVER
deriving DecidableEq

/-- The error messages of `InvalidParametersError` that the engine throws. -/
inductive GameError where
  | GAME_NOT_IN_PROGRESS
  | PLAYER_NOT_IN_GAME
  | BOARD_POSITION_NOT_EMPTY
  | MOVE_NOT_YOUR_TURN
  | PLAYER_ALREADY_IN_GAME
  | GAME_FULL
deriving DecidableEq

/-- Player identifiers (`Player.id`, a string). -/
abbrev PlayerID := String

/-- The whole state of a `QuantumTicTacToeGame` object: the exposed
`QuantumTicTacToeGameState` (`x`, `o`, `status`, `winner`, `moves`,
`publiclyVisible`, `xScore`, `oScore`) together with the private
`_moveCount` field (the `_xScore`/`_oScore` private fields always mirror
the exposed scores, so they are not duplicated here). -/
structure QState where
  x : Option PlayerID
  o : Option PlayerID
  status : GameStatus
  winner : Option PlayerID
  moves : List QMove
  publiclyVisible : QBoard → Fin 3 → Fin 3 → Bool
  xScore : Nat
  oScore : Nat
  moveCount : Nat

instance : DecidableEq QState := fun s t =>
  match s, t with
  | ⟨x1, o1, st1, w1, m1, p1, xs1, os1, mc1⟩,
    ⟨x2, o2, st2, w2, m2, p2, xs2, os2, mc2⟩ =>
    decidable_of_iff
      (x1 = x2 ∧ o1 = o2 ∧ st1 = st2 ∧ w1 = w2 ∧ m1 = m2 ∧ p1 = p2 ∧
        xs1 = xs2 ∧ os1 = os2 ∧ mc1 = mc2)
      (by rw [QState.mk.injEq])

/-- The all-false `publiclyVisible` grids of a fresh game. -/
def initRevealed : QBoard → Fin 3 → Fin 3 → Bool := fun _ _ _ => false

/-- The state built by the constructor. -/
def initialState : QState :=
  { x := none
    o := none
    status := GameStatus.WAITING_TO_START
    winner := none
    moves := []
    publiclyVisible := initRevealed
    xScore := 0
    oScore := 0
    moveCount := 0 }

/-- The moves recorded on one board
(`this.state.moves.filter(m => m.board === board)`). -/
def boardMovesOf (b : QBoard) (moves : List QMove) : List QMove :=
  moves.filter (fun m => decide (m.board = b))

/-- The 3×3 grid of `_getBoardWinner`, filled from the given moves in order
(`grid[move.row][move.col] = move.gamePiece`). -/
def fillGrid (ms : List QMove) : Fin 3 → Fin 3 → Option Piece :=
  ms.foldl
    (fun g m => fun r c =>
      if r = m.row ∧ c = m.col then some m.gamePiece else g r c)
    (fun _ _ => none)

/-- One line check of `_getBoardWinner`: a winner if the first cell is
occupied and the other two cells hold the same piece. -/
def lineWinner (g : Fin 3 → Fin 3 → Option Piece)
    (p q r : Fin 3 × Fin 3) : Option Piece :=
  match g p.1 p.2 with
  | some pc =>
      if g q.1 q.2 = some pc ∧ g r.1 r.2 = some pc then some pc else none
  | none => none

/-- `_getBoardWinner`: rows, then columns, then the two diagonals, first
match wins. -/
def getBoardWinner (b : QBoard) (moves : List QMove) : Option Piece :=
  let g := fillGrid (boardMovesOf b moves)
  (lineWinner g (0, 0) (0, 1) (0, 2)).orElse fun _ =>
  (lineWinner g (1, 0) (1, 1) (1, 2)).orElse fun _ =>
  (lineWinner g (2, 0) (2, 1) (2, 2)).orElse fun _ =>
  (lineWinner g (0, 0) (1, 0) (2, 0)).orElse fun _ =>
  (lineWinner g (0, 1) (1, 1) (2, 1)).orElse fun _ =>
  (lineWinner g (0, 2) (1, 2) (2, 2)).orElse fun _ =>
  (lineWinner g (0, 0) (1, 1) (2, 2)).orElse fun _ =>
  lineWinner g (0, 2) (1, 1) (2, 0)

/-- `_isBoardWon`: the board has a winner. -/
def isBoardWon (b : QBoard) (moves : List QMove) : Bool :=
  (getBoardWinner b moves).isSome

/-- Resolving the game piece of a player id against the seat assignment
(the `if move.playerID === this.state.x … else if … this.state.o` cascade
shared by `applyMove` and `_validateMove`). -/
def resolvePiece (s : QState) (pid : PlayerID) : Option Piece :=
  if s.x = some pid then some Piece.X
  else if s.o = some pid then some Piece.O
  else none

/-- The predicate of the collision lookup in `applyMove`
(`m => m.board === board && m.col === col && m.row === row`). -/
def cellMatch (b : QBoard) (r c : Fin 3) : QMove → Bool :=
  fun m => decide (m.board = b ∧ m.col = c ∧ m.row = r)

/-- The predicate of the own-cell lookup in `_validateMove`
(the collision predicate plus `m.gamePiece === gamePiece`). -/
def ownMatch (gp : Piece) (b : QBoard) (r c : Fin 3) : QMove → Bool :=
  fun m => decide (m.board = b ∧ m.col = c ∧ m.row = r ∧ m.gamePiece = gp)

/-- `_validateMove`: status, seat membership, board-won, own-cell and
turn-order checks, in source order; returns the error thrown, if any. -/
def validateMove (s : QState) (pid : PlayerID)
    (b : QBoard) (r c : Fin 3) : Option GameError :=
  if s.status ≠ GameStatus.IN_PROGRESS then
    some GameError.GAME_NOT_IN_PROGRESS
  else
    match resolvePiece s pid with
    | none => some GameError.PLAYER_NOT_IN_GAME
    | some gamePiece =>
      if isBoardWon b s.moves then
        some GameError.BOARD_POSITION_NOT_EMPTY
      else if (s.moves.find? (ownMatch gamePiece b r c)).isSome then
        some GameError.BOARD_POSITION_NOT_EMPTY
      else if gamePiece = Piece.X ∧ s.moveCount % 2 = 1 then
        some GameError.MOVE_NOT_YOUR_TURN
      else if gamePiece = Piece.O ∧ s.moveCount % 2 = 0 then
        some GameError.MOVE_NOT_YOUR_TURN
      else
        none

/-- The `publiclyVisible` update performed on a collision: set the one cell
of the one board to `true`, keep every other cell. -/
def setRevealed (pv : QBoard → Fin 3 → Fin 3 → Bool)
    (b : QBoard) (r c : Fin 3) : QBoard → Fin 3 → Fin 3 → Bool :=
  fun b' r' c' => if b' = b ∧ r' = r ∧ c' = c then true else pv b' r' c'

/-- The number of boards won by the given piece, computed from the moves
alone by the Board Evaluator (the counting loop of `_checkForWins`). -/
def winsOf (p : Piece) (moves : List QMove) : Nat :=
  (if getBoardWinner QBoard.A moves = some p then 1 else 0) +
  (if getBoardWinner QBoard.B moves = some p then 1 else 0) +
  (if getBoardWinner QBoard.C moves = some p then 1 else 0)

/-- `_checkForWins`: recompute both scores by evaluating all three boards
with `_getBoardWinner` over the recorded moves. -/
def checkForWins (s : QState) : QState :=
  { s with xScore := winsOf Piece.X s.moves, oScore := winsOf Piece.O s.moves }

/-- The `hasAvailableMove` loop of `_checkForGameEnding`: some board is not
won and has fewer than 9 recorded moves. -/
def hasAvailableMove (s : QState) : Bool :=
  (!(isBoardWon QBoard.A s.moves) &&
    decide ((boardMovesOf QBoard.A s.moves).length < 9)) ||
  (!(isBoardWon QBoard.B s.moves) &&
    decide ((boardMovesOf QBoard.B s.moves).length < 9)) ||
  (!(isBoardWon QBoard.C s.moves) &&
    decide ((boardMovesOf QBoard.C s.moves).length < 9))

/-- `_checkForGameEnding`: a score of 2 ends the game at once with the
higher-scoring seat as winner; otherwise, if no board has an available
move, the game ends with the higher-scoring seat as winner, or no winner
on equal scores. -/
def checkForGameEnding (s : QState) : QState :=
  if 2 ≤ s.xScore ∨ 2 ≤ s.oScore then
    { s with status := GameStatus.OVER
             winner := if s.oScore < s.xScore then s.x else s.o }
  else if hasAvailableMove s then
    s
  else
    { s with status := GameStatus.OVER
             winner :=
               if s.oScore < s.xScore then s.x
               else if s.xScore < s.oScore then s.o
               else none }

/-- `_join`: seat the player at X if empty, else at O if empty; start the
game when both seats become filled. -/
def joinGame (s : QState) (pid : PlayerID) :
    Except (GameError × QState) QState :=
  if s.x = some pid ∨ s.o = some pid then
    Except.error (GameError.PLAYER_ALREADY_IN_GAME, s)
  else if s.x = none then
    let s1 := { s with x := some pid }
    Except.ok (if s1.x ≠ none ∧ s1.o ≠ none then
      { s1 with status := GameStatus.IN_PROGRESS } else s1)
  else if s.o = none then
    let s1 := { s with o := some pid }
    Except.ok (if s1.x ≠ none ∧ s1.o ≠ none then
      { s1 with status := GameStatus.IN_PROGRESS } else s1)
  else
    Except.error (GameError.GAME_FULL, s)

/-- `_leave`: a player holding neither seat is rejected; if seat O was
never filled the match is reset to the constructor state; otherwise the
game is over and the remaining player wins by forfeit. -/
def leaveGame (s : QState) (pid : PlayerID) :
    Except (GameError × QState) QState :=
  if s.x ≠ some pid ∧ s.o ≠ some pid then
    Except.error (GameError.PLAYER_NOT_IN_GAME, s)
  else if s.o = none then
    Except.ok
      { x := none
        o := none
        status := GameStatus.WAITING_TO_START
        winner := none
        moves := []
        publiclyVisible := initRevealed
        xScore := 0
        oScore := 0
        moveCount := 0 }
  else
    Except.ok
      { s with status := GameStatus.OVER
               winner := if s.x = some pid then s.o else s.x }

/-- `applyMove`: status and seat checks, `_validateMove`, then the
collision/placement decision: an existing move at the target cell by the
same piece is rejected, by the opposing piece reveals the cell and
consumes the turn, and an empty cell records the move and re-derives
scores and the game-ending condition. -/
def applyMove (s : QState) (pid : PlayerID)
    (b : QBoard) (r c : Fin 3) : Except (GameError × QState) QState :=
  if s.status ≠ GameStatus.IN_PROGRESS then
    Except.error (GameError.GAME_NOT_IN_PROGRESS, s)
  else
    match resolvePiece s pid with
    | none => Except.error (GameError.PLAYER_NOT_IN_GAME, s)
    | some gamePiece =>
      match validateMove s pid b r c with
      | some e => Except.error (e, s)
      | none =>
        match s.moves.find? (cellMatch b r c) with
        | some existingMove =>
          if existingMove.gamePiece = gamePiece then
            Except.error (GameError.BOARD_POSITION_NOT_EMPTY, s)
          else
            Except.ok
              { s with moveCount := s.moveCount + 1
                       publiclyVisible := setRevealed s.publiclyVisible b r c }
        | none =>
          let s2 := { s with moveCount := s.moveCount + 1
                             moves := s.moves ++ [⟨b, r, c, gamePiece⟩] }
          Except.ok (checkForGameEnding (checkForWins s2))

/-- The condition on which `_checkForGameEnding` flips the status to
`OVER`: a score of 2 or no available move on any board. -/
def gameEndCond (s : QState) : Bool :=
  decide (2 ≤ s.xScore) || decide (2 ≤ s.oScore) || !(hasAvailableMove s)

/-- Run `_join` and keep the resulting object state, also on a throw. -/
def stepJoin (s : QState) (pid : PlayerID) : QState :=
  match joinGame s pid with
  | Except.ok t => t
  | Except.error (_, t) => t

/-- Run `applyMove` and keep the resulting object state, also on a throw. -/
def stepMove (s : QState) (pid : PlayerID) (b : QBoard) (r c : Fin 3) :
    QState :=
  match applyMove s pid b r c with
  | Except.ok t => t
  | Except.error (_, t) => t

/-- Run `_leave` and keep the resulting object state, also on a throw. -/
def stepLeave (s : QState) (pid : PlayerID) : QState :=
  match leaveGame s pid with
  | Except.ok t => t
  | Except.error (_, t) => t

/-- The states a match object can be in: the constructor state followed by
any sequence of `join` / `leave` / `applyMove` calls (failed calls leave
the state unchanged, so only successful calls need steps). -/
inductive Reachable : QState → Prop where
  | init : Reachable initialState
  | join (s s' : QState) (pid : PlayerID) :
      Reachable s → joinGame s pid = Except.ok s' → Reachable s'
  | leave (s s' : QState) (pid : PlayerID) :
      Reachable s → leaveGame s pid = Except.ok s' → Reachable s'
  | move (s s' : QState) (pid : PlayerID) (b : QBoard) (r c : Fin 3) :
      Reachable s → applyMove s pid b r c = Except.ok s' → Reachable s'

/-- The states a match object can evolve into from a given state by
further `join` / `leave` / `applyMove` calls. -/
inductive ReachFrom (s : QState) : QState → Prop where
  | refl : ReachFrom s s
  | join (t u : QState) (pid : PlayerID) :
      ReachFrom s t → joinGame t pid = Except.ok u → ReachFrom s u
  | leave (t u : QState) (pid : PlayerID) :
      ReachFrom s t → leaveGame t pid = Except.ok u → ReachFrom s u
  | move (t u : QState) (pid : PlayerID) (b : QBoard) (r c : Fin 3) :
      ReachFrom s t → applyMove t pid b r c = Except.ok u → ReachFrom s u

/-! ### Frontend board-display reconstruction
(`QuantumTicTacToeAreaController._updateFrom`, board-display part). -/

/-- `isOurMove` in `_updateFrom`: the move belongs to the viewing player. -/
def isOurMove (st : QState) (ourID : PlayerID) (m : QMove) : Bool :=
  (decide (m.gamePiece = Piece.X) && decide (st.x = some ourID)) ||
  (decide (m.gamePiece = Piece.O) && decide (st.o = some ourID))

/-- Phase 1 of the board display: every move of the viewing player is
placed on the boards (`newState.state.moves.forEach(...)`). -/
def ownBoards (st : QState) (ourID : PlayerID) :
    QBoard → Fin 3 → Fin 3 → Option Piece :=
  st.moves.foldl
    (fun nb m =>
      if isOurMove st ourID m then
        fun b' r' c' =>
          if b' = m.board ∧ r' = m.row ∧ c' = m.col then some m.gamePiece
          else nb b' r' c'
      else nb)
    (fun _ _ _ => none)

/-- The predicate of the phase-2 lookup
(`m => m.board === board && m.row === row && m.col === col`). -/
def displayMatch (b : QBoard) (r c : Fin 3) : QMove → Bool :=
  fun m => decide (m.board = b ∧ m.row = r ∧ m.col = c)

/-- The reconstructed board display: own pieces from phase 1, and on every
publicly visible square the first recorded move there, if any. -/
def displayBoards (st : QState) (ourID : PlayerID) :
    QBoard → Fin 3 → Fin 3 → Option Piece :=
  fun b r c =>
    if st.publiclyVisible b r c then
      match st.moves.find? (displayMatch b r c) with
      | some m => some m.gamePiece
      | none => ownBoards st ourID b r c
    else ownBoards st ourID b r c

/-- The part of the recorded moves that is visible to the viewing player:
their own moves plus every move on a publicly visible square. -/
def visibleMovesFor (st : QState) (ourID : PlayerID) : List QMove :=
  st.moves.filter
    (fun m => isOurMove st ourID m || st.publiclyVisible m.board m.row m.col)

/-- Everything the viewing player observes: the reconstructed boards plus
the seats, status, winner and scores of the snapshot. -/
def playerView (st : QState) (ourID : PlayerID) :
    (QBoard → Fin 3 → Fin 3 → Option Piece) ×
      Option PlayerID × Option PlayerID × GameStatus ×
      Option PlayerID × Nat × Nat :=
  (displayBoards st ourID, st.x, st.o, st.status, st.winner,
    st.xScore, st.oScore)

/-! ### Concrete match histories (taken from the repository's test file) -/

/-- Player "p1" has joined as X; seat O is still free. -/
def gJ1 : QState := stepJoin initialState "p1"

/-- Both players have joined: the game is running. -/
def gStart : QState := stepJoin gJ1 "p2"

/-- X plays A(0,0). -/
def gW1 : QState := stepMove gStart "p1" QBoard.A 0 0

/-- O plays B(0,0). -/
def gW2 : QState := stepMove gW1 "p2" QBoard.B 0 0

def gW3 : QState := stepMove gW2 "p1" QBoard.A 0 1

def gW4 : QState := stepMove gW3 "p2" QBoard.B 0 1

/-- X completes the top row of board A: board A is won, score 1–0. -/
def gW5 : QState := stepMove gW4 "p1" QBoard.A 0 2

def gW6 : QState := stepMove gW5 "p2" QBoard.C 0 0

def gW7 : QState := stepMove gW6 "p1" QBoard.B 1 0

def gW8 : QState := stepMove gW7 "p2" QBoard.C 0 1

def gW9 : QState := stepMove gW8 "p1" QBoard.B 1 1

def gW10 : QState := stepMove gW9 "p2" QBoard.C 0 2

/-- A variant of `gW2` where O's unrevealed move sits at B(0,1) instead of
B(0,0). -/
def gAlt2 : QState := stepMove gW1 "p2" QBoard.B 0 1

/-- The forfeit state after X leaves the running match. -/
def gForfeit : QState := stepLeave gStart "p1"

/-! ### Basic facts about the transition functions -/

theorem checkForWins_fields (s : QState) :
    (checkForWins s).x = s.x ∧ (checkForWins s).o = s.o ∧
    (checkForWins s).status = s.status ∧ (checkForWins s).winner = s.winner ∧
    (checkForWins s).moves = s.moves ∧
    (checkForWins s).publiclyVisible = s.publiclyVisible ∧
    (checkForWins s).moveCount = s.moveCount ∧
    (checkForWins s).xScore = winsOf Piece.X s.moves ∧
    (checkForWins s).oScore = winsOf Piece.O s.moves :=
  ⟨rfl, rfl, rfl, rfl, rfl, rfl, rfl, rfl, rfl⟩

theorem checkForGameEnding_fields (s : QState) :
    (checkForGameEnding s).x = s.x ∧ (checkForGameEnding s).o = s.o ∧
    (checkForGameEnding s).moves = s.moves ∧
    (checkForGameEnding s).publiclyVisible = s.publiclyVisible ∧
    (checkForGameEnding s).moveCount = s.moveCount ∧
    (checkForGameEnding s).xScore = s.xScore ∧
    (checkForGameEnding s).oScore = s.oScore := by
  unfold checkForGameEnding
  split
  · exact ⟨rfl, rfl, rfl, rfl, rfl, rfl, rfl⟩
  · split
    · exact ⟨rfl, rfl, rfl, rfl, rfl, rfl, rfl⟩
    · exact ⟨rfl, rfl, rfl, rfl, rfl, rfl, rfl⟩

theorem checkForGameEnding_of_false {s : QState} (h : gameEndCond s = false) :
    checkForGameEnding s = s := by
  unfold gameEndCond at h
  simp only [Bool.or_eq_false_iff, decide_eq_false_iff_not,
    Bool.not_eq_false'] at h
  obtain ⟨⟨h1, h2⟩, h3⟩ := h
  unfold checkForGameEnding
  rw [if_neg (by omega), if_pos h3]

theorem checkForGameEnding_status_of_true {s : QState}
    (h : gameEndCond s = true) :
    (checkForGameEnding s).status = GameStatus.OVER := by
  unfold gameEndCond at h
  unfold checkForGameEnding
  split
  · rfl
  next hs =>
    have h1 : ¬ 2 ≤ s.xScore ∧ ¬ 2 ≤ s.oScore := by
      constructor <;> intro hc <;> exact hs (by omega)
    have h3 : hasAvailableMove s = false := by
      simp only [Bool.or_eq_true, decide_eq_true_eq, Bool.not_eq_true'] at h
      rcases h with (h | h) | h
      · exact absurd h h1.1
      · exact absurd h h1.2
      · exact h
    rw [if_neg (by simp [h3])]

theorem validateMove_none_inv {s : QState} {pid : PlayerID} {b : QBoard}
    {r c : Fin 3} (h : validateMove s pid b r c = none) :
    s.status = GameStatus.IN_PROGRESS ∧
    ∃ gp, resolvePiece s pid = some gp ∧
      isBoardWon b s.moves = false ∧
      s.moves.find? (ownMatch gp b r c) = none ∧
      ¬(gp = Piece.X ∧ s.moveCount % 2 = 1) ∧
      ¬(gp = Piece.O ∧ s.moveCount % 2 = 0) := by
  unfold validateMove at h
  split at h
  · exact absurd h (by simp)
  next hst =>
    rw [not_not] at hst
    refine ⟨hst, ?_⟩
    split at h
    · exact absurd h (by simp)
    next gp hgp =>
      refine ⟨gp, hgp, ?_⟩
      split at h
      · exact absurd h (by simp)
      next hwon =>
        split at h
        · exact absurd h (by simp)
        next hown =>
          split at h
          · exact absurd h (by simp)
          next hx =>
            split at h
            · exact absurd h (by simp)
            next ho =>
              exact ⟨Bool.of_not_eq_true hwon,
                Option.not_isSome_iff_eq_none.mp hown, hx, ho⟩

theorem validateMove_some_turn {s : QState} {pid : PlayerID} {b : QBoard}
    {r c : Fin 3} {gp : Piece}
    (hst : s.status = GameStatus.IN_PROGRESS)
    (hgp : resolvePiece s pid = some gp)
    (hwon : isBoardWon b s.moves = false)
    (hown : s.moves.find? (ownMatch gp b r c) = none)
    (hturn : gp = Piece.X ∧ s.moveCount % 2 = 1 ∨
      gp = Piece.O ∧ s.moveCount % 2 = 0) :
    validateMove s pid b r c = some GameError.MOVE_NOT_YOUR_TURN := by
  unfold validateMove
  rw [if_neg (by simp [hst]), hgp]
  dsimp only
  rw [if_neg (by simp [hwon]), if_neg (by simp [hown])]
  rcases hturn with h | h
  · rw [if_pos h]
  · rw [if_neg, if_pos h]
    rintro ⟨hX, -⟩
    rw [hX] at h
    exact absurd h.1 (by simp)

theorem validateMove_boardWon {s : QState} {pid : PlayerID} {b : QBoard}
    {r c : Fin 3} {gp : Piece}
    (hst : s.status = GameStatus.IN_PROGRESS)
    (hgp : resolvePiece s pid = some gp)
    (hwon : isBoardWon b s.moves = true) :
    validateMove s pid b r c = some GameError.BOARD_POSITION_NOT_EMPTY := by
  unfold validateMove
  rw [if_neg (by simp [hst]), hgp]
  dsimp only
  rw [if_pos hwon]

theorem applyMove_ok_inv {s : QState} {pid : PlayerID} {b : QBoard}
    {r c : Fin 3} {s' : QState}
    (h : applyMove s pid b r c = Except.ok s') :
    s.status = GameStatus.IN_PROGRESS ∧
    ∃ gp, resolvePiece s pid = some gp ∧
      validateMove s pid b r c = none ∧
      ((∃ m, s.moves.find? (cellMatch b r c) = some m ∧ m.gamePiece ≠ gp ∧
          s' = { s with moveCount := s.moveCount + 1
                        publiclyVisible :=
                          setRevealed s.publiclyVisible b r c }) ∨
       (s.moves.find? (cellMatch b r c) = none ∧
          s' = checkForGameEnding (checkForWins
            { s with moveCount := s.moveCount + 1
                     moves := s.moves ++ [⟨b, r, c, gp⟩] }))) := by
  unfold applyMove at h
  split at h
  · exact absurd h (by simp)
  next hst =>
    rw [not_not] at hst
    refine ⟨hst, ?_⟩
    split at h
    · exact absurd h (by simp)
    next gp hgp =>
      refine ⟨gp, hgp, ?_⟩
      split at h
      · exact absurd h (by simp)
      next hval =>
        refine ⟨hval, ?_⟩
        split at h
        next m hm =>
          split at h
          · exact absurd h (by simp)
          next hne =>
            refine Or.inl ⟨m, hm, hne, ?_⟩
            exact (Except.ok.injEq _ _).mp h.symm
        next hm =>
          refine Or.inr ⟨hm, ?_⟩
          exact (Except.ok.injEq _ _).mp h.symm

theorem applyMove_error_state {s : QState} {pid : PlayerID} {b : QBoard}
    {r c : Fin 3} {e : GameError} {t : QState}
    (h : applyMove s pid b r c = Except.error (e, t)) : t = s := by
  unfold applyMove at h
  split at h
  · simp only [Except.error.injEq, Prod.mk.injEq] at h
    exact h.2.symm
  · split at h
    · simp only [Except.error.injEq, Prod.mk.injEq] at h
      exact h.2.symm
    · split at h
      · simp only [Except.error.injEq, Prod.mk.injEq] at h
        exact h.2.symm
      · split at h
        · split at h
          · simp only [Except.error.injEq, Prod.mk.injEq] at h
            exact h.2.symm
          · exact absurd h (by simp)
        · exact absurd h (by simp)

theorem joinGame_ok_inv {s : QState} {pid : PlayerID} {s' : QState}
    (h : joinGame s pid = Except.ok s') :
    ¬(s.x = some pid ∨ s.o = some pid) ∧
    ((s.x = none ∧ s.o = none ∧ s' = { s with x := some pid }) ∨
     (s.x = none ∧ s.o ≠ none ∧
        s' = { s with x := some pid, status := GameStatus.IN_PROGRESS }) ∨
     (s.x ≠ none ∧ s.o = none ∧
        s' = { s with o := some pid, status := GameStatus.IN_PROGRESS })) := by
  unfold joinGame at h
  split at h
  · exact absurd h (by simp)
  next hseat =>
    refine ⟨hseat, ?_⟩
    split at h
    next hx =>
      dsimp only at h
      by_cases ho : s.o = none
      · refine Or.inl ⟨hx, ho, ?_⟩
        rw [if_neg (by simp [ho]), Except.ok.injEq] at h
        exact h.symm
      · refine Or.inr (Or.inl ⟨hx, ho, ?_⟩)
        rw [if_pos (by simp [ho]), Except.ok.injEq] at h
        exact h.symm
    next hx =>
      split at h
      next ho =>
        dsimp only at h
        refine Or.inr (Or.inr ⟨hx, ho, ?_⟩)
        rw [if_pos (by simp [hx]), Except.ok.injEq] at h
        exact h.symm
      · exact absurd h (by simp)

theorem leaveGame_ok_inv {s : QState} {pid : PlayerID} {s' : QState}
    (h : leaveGame s pid = Except.ok s') :
    (s.x = some pid ∨ s.o = some pid) ∧
    ((s.o = none ∧ s' = initialState) ∨
     (s.o ≠ none ∧
        s' = { s with status := GameStatus.OVER
                      winner := if s.x = some pid then s.o else s.x })) := by
  unfold leaveGame at h
  split at h
  · exact absurd h (by simp)
  next hseat =>
    rw [not_and_or, not_not, not_not] at hseat
    refine ⟨hseat, ?_⟩
    split at h
    next ho =>
      exact Or.inl ⟨ho, ((Except.ok.injEq _ _).mp h).symm⟩
    next ho =>
      exact Or.inr ⟨ho, ((Except.ok.injEq _ _).mp h).symm⟩

/-! ### The reachable-state invariant -/

/-- Two recorded moves occupy the same square of the same board. -/
def sameCell (m1 m2 : QMove) : Prop :=
  m1.board = m2.board ∧ m1.row = m2.row ∧ m1.col = m2.col

/-- No two recorded moves occupy the same square of the same board. -/
def cellsDistinct (ms : List QMove) : Prop :=
  List.Pairwise (fun m1 m2 => ¬ sameCell m1 m2) ms

theorem winsOf_sum_le (ms : List QMove) :
    winsOf Piece.X ms + winsOf Piece.O ms ≤ 3 := by
  have h : ∀ w : Option Piece,
      (if w = some Piece.X then 1 else 0) +
        (if w = some Piece.O then 1 else 0) ≤ 1 := by decide
  have hA := h (getBoardWinner QBoard.A ms)
  have hB := h (getBoardWinner QBoard.B ms)
  have hC := h (getBoardWinner QBoard.C ms)
  unfold winsOf
  omega

theorem cellsDistinct_append {ms : List QMove} {mv : QMove}
    (h : cellsDistinct ms)
    (hnone : ms.find? (cellMatch mv.board mv.row mv.col) = none) :
    cellsDistinct (ms ++ [mv]) := by
  rw [cellsDistinct, List.pairwise_append]
  refine ⟨h, List.pairwise_singleton _ _, ?_⟩
  intro a ha mv' hmv'
  rw [List.mem_singleton] at hmv'
  subst hmv'
  have hne := List.find?_eq_none.mp hnone a ha
  rw [cellMatch, decide_eq_true_eq] at hne
  rintro ⟨h1, h2, h3⟩
  exact hne ⟨h1, h3, h2⟩

theorem gameEndCond_of_start {s : QState} (hm : s.moves = [])
    (hx : s.xScore = 0) (ho : s.oScore = 0) : gameEndCond s = false := by
  unfold gameEndCond hasAvailableMove
  rw [hm, hx, ho]
  decide

/-- The engine invariant: scores are re-derivable from the moves, no square
holds two recorded moves, a waiting game is empty with both the turn clock
at 0 and seat O free, a started game has both seats filled, and a running
game does not satisfy the ending condition. -/
def Inv (s : QState) : Prop :=
  s.xScore = winsOf Piece.X s.moves ∧
  s.oScore = winsOf Piece.O s.moves ∧
  cellsDistinct s.moves ∧
  (s.status = GameStatus.WAITING_TO_START →
    s.o = none ∧ s.moves = [] ∧ s.moveCount = 0) ∧
  (s.status ≠ GameStatus.WAITING_TO_START → s.x ≠ none ∧ s.o ≠ none) ∧
  (s.status = GameStatus.IN_PROGRESS → gameEndCond s = false)

theorem Inv_initial : Inv initialState := by
  refine ⟨rfl, rfl, List.Pairwise.nil, fun _ => ⟨rfl, rfl, rfl⟩, ?_, ?_⟩
  · intro h
    exact absurd rfl h
  · intro h
    exact absurd h (by decide)

theorem Inv_join {s s' : QState} {pid : PlayerID}
    (hInv : Inv s) (h : joinGame s pid = Except.ok s') : Inv s' := by
  obtain ⟨hxs, hos, hcd, hw, hnw, hip⟩ := hInv
  obtain ⟨-, hcase⟩ := joinGame_ok_inv h
  rcases hcase with ⟨hx, ho, rfl⟩ | ⟨hx, ho, rfl⟩ | ⟨hx, ho, rfl⟩
  · have hst : s.status = GameStatus.WAITING_TO_START := by
      by_contra hne
      exact (hnw hne).1 hx
    obtain ⟨-, hm0, hc0⟩ := hw hst
    refine ⟨hxs, hos, hcd, fun _ => ⟨ho, hm0, hc0⟩, ?_, ?_⟩
    · intro hne
      exact absurd hst hne
    · intro hipg
      have : s.status = GameStatus.IN_PROGRESS := hipg
      rw [hst] at this
      exact absurd this (by decide)
  · exfalso
    by_cases hst : s.status = GameStatus.WAITING_TO_START
    · exact ho (hw hst).1
    · exact (hnw hst).1 hx
  · have hst : s.status = GameStatus.WAITING_TO_START := by
      by_contra hne
      exact (hnw hne).2 ho
    obtain ⟨-, hm0, hc0⟩ := hw hst
    have hx0 : s.xScore = 0 := by rw [hxs, hm0]; decide
    have ho0 : s.oScore = 0 := by rw [hos, hm0]; decide
    refine ⟨hxs, hos, hcd, ?_, ?_, ?_⟩
    · intro hwg
      simp at hwg
    · intro _
      exact ⟨hx, by simp⟩
    · intro _
      exact gameEndCond_of_start hm0 hx0 ho0

theorem Inv_leave {s s' : QState} {pid : PlayerID}
    (hInv : Inv s) (h : leaveGame s pid = Except.ok s') : Inv s' := by
  obtain ⟨hxs, hos, hcd, hw, hnw, hip⟩ := hInv
  obtain ⟨hseat, hcase⟩ := leaveGame_ok_inv h
  rcases hcase with ⟨ho, rfl⟩ | ⟨ho, rfl⟩
  · exact Inv_initial
  · refine ⟨hxs, hos, hcd, ?_, ?_, ?_⟩
    · intro hwg
      simp at hwg
    · intro _
      refine ⟨?_, ho⟩
      rcases hseat with hxp | hop
      · rw [hxp]
        simp
      · by_cases hst : s.status = GameStatus.WAITING_TO_START
        · exact absurd (hw hst).1 ho
        · exact (hnw hst).1
    · intro hipg
      simp at hipg

theorem Inv_applyMove {s s' : QState} {pid : PlayerID} {b : QBoard}
    {r c : Fin 3} (hInv : Inv s)
    (h : applyMove s pid b r c = Except.ok s') : Inv s' := by
  obtain ⟨hxs, hos, hcd, hw, hnw, hip⟩ := hInv
  obtain ⟨hst, gp, hgp, hval, hcase⟩ := applyMove_ok_inv h
  have hnwg : s.status ≠ GameStatus.WAITING_TO_START := by
    rw [hst]
    decide
  rcases hcase with ⟨m, hm, hne, rfl⟩ | ⟨hm, rfl⟩
  · -- collision: scores, moves, status, seats all unchanged
    refine ⟨hxs, hos, hcd, ?_, ?_, ?_⟩
    · intro hwg
      have : s.status = GameStatus.WAITING_TO_START := hwg
      exact absurd this hnwg
    · intro _
      exact hnw hnwg
    · intro _
      exact hip hst
  · -- placement
    have hcd' : cellsDistinct (s.moves ++ [(⟨b, r, c, gp⟩ : QMove)]) :=
      cellsDistinct_append hcd hm
    have hxo := hnw hnwg
    by_cases hend :
        gameEndCond (checkForWins
          { s with moveCount := s.moveCount + 1
                   moves := s.moves ++ [⟨b, r, c, gp⟩] }) = true
    · have hsov := checkForGameEnding_status_of_true hend
      obtain ⟨hcx, hco, hcm, -, -, hcxs, hcos⟩ := checkForGameEnding_fields
        (checkForWins { s with moveCount := s.moveCount + 1
                               moves := s.moves ++ [⟨b, r, c, gp⟩] })
      refine ⟨?_, ?_, ?_, ?_, ?_, ?_⟩
      · rw [hcm, hcxs]
        rfl
      · rw [hcm, hcos]
        rfl
      · rw [hcm]
        exact hcd'
      · intro hwg
        rw [hsov] at hwg
        exact absurd hwg (by decide)
      · intro _
        rw [hcx, hco]
        exact hxo
      · intro hipg
        rw [hsov] at hipg
        exact absurd hipg (by decide)
    · rw [Bool.not_eq_true] at hend
      rw [checkForGameEnding_of_false hend]
      refine ⟨rfl, rfl, hcd', ?_, ?_, ?_⟩
      · intro hwg
        have : s.status = GameStatus.WAITING_TO_START := hwg
        exact absurd this hnwg
      · intro _
        exact hxo
      · intro _
        exact hend

theorem reachable_inv {s : QState} (h : Reachable s) : Inv s := by
  induction h with
  | init => exact Inv_initial
  | join t t' pid _ heq ih => exact Inv_join ih heq
  | leave t t' pid _ heq ih => exact Inv_leave ih heq
  | move t t' pid b r c _ heq ih => exact Inv_applyMove ih heq

/-! ### Bounds on a board and the ending condition -/

theorem boardMoves_le_nine {ms : List QMove} (hcd : cellsDistinct ms)
    (b : QBoard) : (boardMovesOf b ms).length ≤ 9 := by
  have hsub : cellsDistinct (boardMovesOf b ms) :=
    List.Pairwise.sublist (List.filter_sublist ms) hcd
  have hnd : ((boardMovesOf b ms).map (fun m => (m.row, m.col))).Nodup := by
    rw [List.Nodup, List.pairwise_map]
    refine List.Pairwise.imp_of_mem ?_ hsub
    intro m1 m2 h1 h2 hns heq
    have hb1 : m1.board = b := by
      have := (List.mem_filter.mp h1).2
      exact of_decide_eq_true this
    have hb2 : m2.board = b := by
      have := (List.mem_filter.mp h2).2
      exact of_decide_eq_true this
    rw [Prod.mk.injEq] at heq
    exact hns ⟨hb1.trans hb2.symm, heq.1, heq.2⟩
  have hcard := hnd.length_le_card
  rw [List.length_map] at hcard
  simpa using hcard

/-- The game-ending condition of the spec: a score has reached 2, or
every board is won or holds 9 recorded moves. -/
def endingCondition (s : QState) : Prop :=
  2 ≤ s.xScore ∨ 2 ≤ s.oScore ∨
    ∀ b : QBoard,
      getBoardWinner b s.moves ≠ none ∨ (boardMovesOf b s.moves).length = 9

/-- The winner is the higher-scoring seat, or absent on a tie. -/
def winnerIsHigher (s : QState) : Prop :=
  (s.oScore < s.xScore → s.winner = s.x) ∧
  (s.xScore < s.oScore → s.winner = s.o) ∧
  (s.xScore = s.oScore → s.winner = none)

theorem boardDead_iff {ms : List QMove} (hcd : cellsDistinct ms)
    (b : QBoard) :
    ((!(isBoardWon b ms)) && decide ((boardMovesOf b ms).length < 9))
        = false ↔
      (getBoardWinner b ms ≠ none ∨ (boardMovesOf b ms).length = 9) := by
  have hle := boardMoves_le_nine hcd b
  unfold isBoardWon
  rcases hgw : getBoardWinner b ms with _ | p
  · simp only [Option.isSome_none, Bool.not_false, Bool.true_and,
      decide_eq_false_iff_not, Nat.not_lt, ne_eq, not_true_eq_false,
      false_or]
    omega
  · simp

theorem gameEndCond_iff {s : QState} (hcd : cellsDistinct s.moves) :
    gameEndCond s = true ↔ endingCondition s := by
  unfold gameEndCond endingCondition
  rw [Bool.or_eq_true, Bool.or_eq_true, decide_eq_true_eq,
    decide_eq_true_eq, Bool.not_eq_true']
  constructor
  · rintro ((h | h) | h)
    · exact Or.inl h
    · exact Or.inr (Or.inl h)
    · refine Or.inr (Or.inr ?_)
      unfold hasAvailableMove at h
      rw [Bool.or_eq_false_iff, Bool.or_eq_false_iff] at h
      obtain ⟨⟨hA, hB⟩, hC⟩ := h
      intro b
      cases b
      · exact (boardDead_iff hcd QBoard.A).mp hA
      · exact (boardDead_iff hcd QBoard.B).mp hB
      · exact (boardDead_iff hcd QBoard.C).mp hC
  · rintro (h | h | h)
    · exact Or.inl (Or.inl h)
    · exact Or.inl (Or.inr h)
    · refine Or.inr ?_
      unfold hasAvailableMove
      rw [Bool.or_eq_false_iff, Bool.or_eq_false_iff]
      exact ⟨⟨(boardDead_iff hcd QBoard.A).mpr (h QBoard.A),
        (boardDead_iff hcd QBoard.B).mpr (h QBoard.B)⟩,
        (boardDead_iff hcd QBoard.C).mpr (h QBoard.C)⟩

theorem checkForGameEnding_winner_of_true {s : QState}
    (hsum : s.xScore + s.oScore ≤ 3) (h : gameEndCond s = true) :
    (s.oScore < s.xScore → (checkForGameEnding s).winner = s.x) ∧
    (s.xScore < s.oScore → (checkForGameEnding s).winner = s.o) ∧
    (s.xScore = s.oScore → (checkForGameEnding s).winner = none) := by
  unfold checkForGameEnding
  split
  next hscore =>
    refine ⟨?_, ?_, ?_⟩
    · intro hlt
      simp only []
      rw [if_pos hlt]
    · intro hlt
      simp only []
      rw [if_neg (by omega)]
    · intro heq
      omega
  next hscore =>
    have h1 : ¬ 2 ≤ s.xScore ∧ ¬ 2 ≤ s.oScore := by
      constructor <;> intro hc <;> exact hscore (by omega)
    have h3 : hasAvailableMove s = false := by
      unfold gameEndCond at h
      simp only [Bool.or_eq_true, decide_eq_true_eq,
        Bool.not_eq_true'] at h
      rcases h with (h | h) | h
      · exact absurd h h1.1
      · exact absurd h h1.2
      · exact h
    rw [if_neg (by simp [h3])]
    refine ⟨?_, ?_, ?_⟩
    · intro hlt
      simp only []
      rw [if_pos hlt]
    · intro hlt
      simp only []
      rw [if_neg (by omega), if_pos hlt]
    · intro heq
      simp only []
      rw [if_neg (by omega), if_neg (by omega)]

/-! ### Error paths of `applyMove` -/

theorem applyMove_error_of_validate {s : QState} {pid : PlayerID}
    {b : QBoard} {r c : Fin 3} {gp : Piece} {e : GameError}
    (hst : s.status = GameStatus.IN_PROGRESS)
    (hgp : resolvePiece s pid = some gp)
    (hval : validateMove s pid b r c = some e) :
    applyMove s pid b r c = Except.error (e, s) := by
  unfold applyMove
  rw [if_neg (by simp [hst]), hgp]
  dsimp only
  rw [hval]

theorem validateMove_turn_error_inv {s : QState} {pid : PlayerID}
    {b : QBoard} {r c : Fin 3}
    (h : validateMove s pid b r c = some GameError.MOVE_NOT_YOUR_TURN) :
    isBoardWon b s.moves = false ∧
    ∃ gp, resolvePiece s pid = some gp ∧
      s.moves.find? (ownMatch gp b r c) = none := by
  unfold validateMove at h
  split at h
  · exact absurd (Option.some.injEq _ _ ▸ h) (by simp)
  · split at h
    · exact absurd (Option.some.injEq _ _ ▸ h) (by simp)
    next gp hgp =>
      split at h
      · exact absurd (Option.some.injEq _ _ ▸ h) (by simp)
      next hwon =>
        split at h
        · exact absurd (Option.some.injEq _ _ ▸ h) (by simp)
        next hown =>
          exact ⟨Bool.of_not_eq_true hwon,
            gp, hgp, Option.not_isSome_iff_eq_none.mp hown⟩

theorem applyMove_turn_error_inv {s : QState} {pid : PlayerID}
    {b : QBoard} {r c : Fin 3} {t : QState}
    (h : applyMove s pid b r c =
      Except.error (GameError.MOVE_NOT_YOUR_TURN, t)) :
    validateMove s pid b r c = some GameError.MOVE_NOT_YOUR_TURN := by
  unfold applyMove at h
  split at h
  · simp only [Except.error.injEq, Prod.mk.injEq] at h
    exact absurd h.1 (by simp)
  · split at h
    · simp only [Except.error.injEq, Prod.mk.injEq] at h
      exact absurd h.1 (by simp)
    next gp hgp =>
      split at h
      next e hval =>
        simp only [Except.error.injEq, Prod.mk.injEq] at h
        rw [hval, h.1]
      next hval =>
        split at h
        · split at h
          · simp only [Except.error.injEq, Prod.mk.injEq] at h
            exact absurd h.1 (by simp)
          · exact absurd h (by simp)
        · exact absurd h (by simp)

/-! ### A finished match stays finished -/

theorem over_locked {s t : QState} (h : ReachFrom s t)
    (hs : s.status = GameStatus.OVER ∧ s.x ≠ none ∧ s.o ≠ none) :
    t.status = GameStatus.OVER ∧ t.x ≠ none ∧ t.o ≠ none := by
  induction h with
  | refl => exact hs
  | join t u pid hr heq ih =>
    exfalso
    obtain ⟨hst, hx, ho⟩ := ih
    obtain ⟨-, hcase⟩ := joinGame_ok_inv heq
    rcases hcase with ⟨h1, -, -⟩ | ⟨h1, -, -⟩ | ⟨-, h1, -⟩
    · exact hx h1
    · exact hx h1
    · exact ho h1
  | leave t u pid hr heq ih =>
    obtain ⟨hst, hx, ho⟩ := ih
    obtain ⟨hseat, hcase⟩ := leaveGame_ok_inv heq
    rcases hcase with ⟨h1, -⟩ | ⟨-, rfl⟩
    · exact absurd h1 ho
    · exact ⟨rfl, hx, ho⟩
  | move t u pid b r c hr heq ih =>
    exfalso
    have hip := (applyMove_ok_inv heq).1
    rw [ih.1] at hip
    exact absurd hip (by decide)

theorem applyMove_not_in_progress {s : QState} {pid : PlayerID}
    {b : QBoard} {r c : Fin 3} (h : s.status ≠ GameStatus.IN_PROGRESS) :
    applyMove s pid b r c =
      Except.error (GameError.GAME_NOT_IN_PROGRESS, s) := by
  unfold applyMove
  rw [if_pos h]

/-! ### List lemmas for display reconstruction and cell uniqueness -/

theorem foldl_guard_filter {α β : Type} (p : α → Bool) (f : β → α → β) :
    ∀ (l : List α) (g : β),
      l.foldl (fun acc m => if p m then f acc m else acc) g =
        (l.filter p).foldl f g := by
  intro l
  induction l with
  | nil => intro g; rfl
  | cons a l ih =>
    intro g
    cases hpa : p a <;> simp [List.filter_cons, hpa, ih]

theorem find?_filter_of_imp {α : Type} (p q : α → Bool)
    (himp : ∀ a, q a = true → p a = true) :
    ∀ l : List α, (l.filter p).find? q = l.find? q := by
  intro l
  induction l with
  | nil => rfl
  | cons a l ih =>
    cases hpa : p a
    · cases hqa : q a
      · simp [List.filter_cons, List.find?_cons, hpa, hqa, ih]
      · exact absurd (himp a hqa) (by simp [hpa])
    · cases hqa : q a <;>
        simp [List.filter_cons, List.find?_cons, hpa, hqa, ih]

theorem find?_filter_eq {α : Type} (p q : α → Bool) :
    ∀ l : List α,
      (l.filter p).find? q = l.find? (fun a => p a && q a) := by
  intro l
  induction l with
  | nil => rfl
  | cons a l ih =>
    cases hpa : p a
    · simp [List.filter_cons, List.find?_cons, hpa, ih]
    · cases hqa : q a <;>
        simp [List.filter_cons, List.find?_cons, hpa, hqa, ih]

theorem filter_or_absorb {α : Type} (p v : α → Bool) (l : List α) :
    (l.filter (fun a => p a || v a)).filter p = l.filter p := by
  rw [List.filter_filter]
  apply List.filter_congr
  intro a _
  cases hpa : p a <;> simp [hpa]

theorem fillGrid_fold_cell (r c : Fin 3) :
    ∀ (ms : List QMove) (g : Fin 3 → Fin 3 → Option Piece),
      List.Pairwise (fun m1 m2 => ¬(m1.row = m2.row ∧ m1.col = m2.col)) ms →
      ms.foldl (fun g0 m => fun r' c' =>
          if r' = m.row ∧ c' = m.col then some m.gamePiece else g0 r' c')
        g r c =
        (match ms.find? (fun m => decide (m.row = r ∧ m.col = c)) with
         | some m => some m.gamePiece
         | none => g r c) := by
  intro ms
  induction ms with
  | nil => intro g _; rfl
  | cons m ms ih =>
    intro g hpw
    obtain ⟨hhead, hpw'⟩ := List.pairwise_cons.mp hpw
    rw [List.foldl_cons]
    cases hq : decide (m.row = r ∧ m.col = c)
    · have hq' : ¬(m.row = r ∧ m.col = c) := by simpa using hq
      rw [ih _ hpw']
      have hskip : List.find?
          (fun m' => decide (m'.row = r ∧ m'.col = c)) (m :: ms) =
          List.find? (fun m' => decide (m'.row = r ∧ m'.col = c)) ms := by
        simp [List.find?_cons, ← Bool.decide_and, hq]
      rw [hskip]
      cases hf : List.find? (fun m' => decide (m'.row = r ∧ m'.col = c)) ms
      · have : ¬(r = m.row ∧ c = m.col) := fun hcon =>
          hq' ⟨hcon.1.symm, hcon.2.symm⟩
        simp [this]
      · simp
    · have hq' : m.row = r ∧ m.col = c := by simpa using hq
      have hfind : List.find?
          (fun m' => decide (m'.row = r ∧ m'.col = c)) (m :: ms) =
          some m := by
        simp [List.find?_cons, ← Bool.decide_and, hq]
      rw [hfind]
      have hnone : List.find?
          (fun m' => decide (m'.row = r ∧ m'.col = c)) ms = none := by
        rw [List.find?_eq_none]
        intro m' hm'
        simp only [decide_eq_true_eq]
        rintro ⟨h1, h2⟩
        exact hhead m' hm' ⟨hq'.1.trans h1.symm, hq'.2.trans h2.symm⟩
      rw [ih _ hpw', hnone]
      simp [hq'.1.symm, hq'.2.symm]

theorem fillGrid_eq_first {ms : List QMove} (hcd : cellsDistinct ms)
    (b : QBoard) (r c : Fin 3) :
    fillGrid (boardMovesOf b ms) r c =
      Option.map QMove.gamePiece (ms.find? (cellMatch b r c)) := by
  have hsub : cellsDistinct (boardMovesOf b ms) :=
    List.Pairwise.sublist (List.filter_sublist ms) hcd
  have hpw : List.Pairwise
      (fun m1 m2 => ¬(m1.row = m2.row ∧ m1.col = m2.col))
      (boardMovesOf b ms) := by
    refine List.Pairwise.imp_of_mem ?_ hsub
    intro m1 m2 h1 h2 hns
    rintro ⟨hr, hc⟩
    have hb1 : m1.board = b := of_decide_eq_true (List.mem_filter.mp h1).2
    have hb2 : m2.board = b := of_decide_eq_true (List.mem_filter.mp h2).2
    exact hns ⟨hb1.trans hb2.symm, hr, hc⟩
  rw [fillGrid, fillGrid_fold_cell r c _ _ hpw]
  have h1 : List.find? (fun m => decide (m.row = r ∧ m.col = c))
      (boardMovesOf b ms) =
      ms.find? (fun m =>
        (fun m : QMove => decide (m.board = b)) m &&
          (fun m : QMove => decide (m.row = r ∧ m.col = c)) m) := by
    rw [boardMovesOf, find?_filter_eq]
  have h2 : (fun m : QMove =>
      (fun m : QMove => decide (m.board = b)) m &&
        (fun m : QMove => decide (m.row = r ∧ m.col = c)) m) =
      cellMatch b r c := by
    funext m
    rw [cellMatch]
    dsimp only
    rw [← Bool.decide_and]
    exact decide_eq_decide.mpr (by tauto)
  rw [h1, h2]
  cases hf : ms.find? (cellMatch b r c) <;> simp [hf]

/-! ### Congruence of the reconstructed player view -/

theorem isOurMove_congr {s1 s2 : QState} (ourID : PlayerID)
    (hx : s1.x = s2.x) (ho : s1.o = s2.o) :
    isOurMove s1 ourID = isOurMove s2 ourID := by
  funext m
  rw [isOurMove, isOurMove, hx, ho]

theorem ownBoards_eq_filter (st : QState) (ourID : PlayerID) :
    ownBoards st ourID =
      (st.moves.filter (isOurMove st ourID)).foldl
        (fun nb m => fun b' r' c' =>
          if b' = m.board ∧ r' = m.row ∧ c' = m.col then some m.gamePiece
          else nb b' r' c')
        (fun _ _ _ => none) := by
  rw [ownBoards]
  exact foldl_guard_filter _ _ _ _

theorem ownBoards_congr {s1 s2 : QState} {ourID : PlayerID}
    (hx : s1.x = s2.x) (ho : s1.o = s2.o)
    (hvm : visibleMovesFor s1 ourID = visibleMovesFor s2 ourID) :
    ownBoards s1 ourID = ownBoards s2 ourID := by
  have hio := isOurMove_congr ourID hx ho
  have key : s1.moves.filter (isOurMove s1 ourID) =
      s2.moves.filter (isOurMove s2 ourID) := by
    have e1 : (visibleMovesFor s1 ourID).filter (isOurMove s1 ourID) =
        s1.moves.filter (isOurMove s1 ourID) := by
      rw [visibleMovesFor, filter_or_absorb]
    have e2 : (visibleMovesFor s2 ourID).filter (isOurMove s2 ourID) =
        s2.moves.filter (isOurMove s2 ourID) := by
      rw [visibleMovesFor, filter_or_absorb]
    rw [← e1, ← e2, hvm, hio]
  rw [ownBoards_eq_filter, ownBoards_eq_filter, key]

theorem displayBoards_congr {s1 s2 : QState} {ourID : PlayerID}
    (hx : s1.x = s2.x) (ho : s1.o = s2.o)
    (hpv : s1.publiclyVisible = s2.publiclyVisible)
    (hvm : visibleMovesFor s1 ourID = visibleMovesFor s2 ourID) :
    displayBoards s1 ourID = displayBoards s2 ourID := by
  have hob := ownBoards_congr hx ho hvm
  funext b r c
  rw [displayBoards, displayBoards, hpv, hob]
  by_cases hrev : s2.publiclyVisible b r c = true
  · rw [if_pos hrev, if_pos hrev]
    have e1 : (visibleMovesFor s1 ourID).find? (displayMatch b r c) =
        s1.moves.find? (displayMatch b r c) := by
      rw [visibleMovesFor]
      refine find?_filter_of_imp _ _ ?_ _
      intro m hm
      rw [displayMatch, decide_eq_true_eq] at hm
      obtain ⟨h1, h2, h3⟩ := hm
      rw [h1, h2, h3, hpv, hrev, Bool.or_true]
    have e2 : (visibleMovesFor s2 ourID).find? (displayMatch b r c) =
        s2.moves.find? (displayMatch b r c) := by
      rw [visibleMovesFor]
      refine find?_filter_of_imp _ _ ?_ _
      intro m hm
      rw [displayMatch, decide_eq_true_eq] at hm
      obtain ⟨h1, h2, h3⟩ := hm
      rw [h1, h2, h3, hrev, Bool.or_true]
    rw [← e1, ← e2, hvm]
  · rw [if_neg hrev, if_neg hrev]

theorem validateMove_ownCell {s : QState} {pid : PlayerID} {b : QBoard}
    {r c : Fin 3} {gp : Piece}
    (hst : s.status = GameStatus.IN_PROGRESS)
    (hgp : resolvePiece s pid = some gp)
    (hwon : isBoardWon b s.moves = false)
    (hown : (s.moves.find? (ownMatch gp b r c)).isSome = true) :
    validateMove s pid b r c = some GameError.BOARD_POSITION_NOT_EMPTY := by
  unfold validateMove
  rw [if_neg (by simp [hst]), hgp]
  dsimp only
  rw [if_neg (by simp [hwon]), if_pos hown]

theorem gameEndCond_checkForGameEnding (s : QState) :
    gameEndCond (checkForGameEnding s) = gameEndCond s := by
  obtain ⟨-, -, hm, -, -, hxs, hos⟩ := checkForGameEnding_fields s
  unfold gameEndCond hasAvailableMove
  rw [hm, hxs, hos]

/-! ### The claims -/

/-- C1: after every accepted `applyMove` attempt on a reachable state, the
status is `OVER` exactly when a score has reached 2 or every board is won
or fully occupied with 9 recorded moves, and on `OVER` the winner is the
higher-scoring seat (absent on equal scores). -/
theorem C1_game_ending (s : QState) (pid : PlayerID) (b : QBoard)
    (r c : Fin 3) (s' : QState) (hreach : Reachable s)
    (h : applyMove s pid b r c = Except.ok s') :
    (s'.status = GameStatus.OVER ↔ endingCondition s') ∧
    (s'.status = GameStatus.OVER → winnerIsHigher s') ∧
    (s'.status ≠ GameStatus.OVER → s'.status = GameStatus.IN_PROGRESS) := by
  obtain ⟨hxs', hos', hcd', -, -, hip'⟩ :=
    reachable_inv (Reachable.move s s' pid b r c hreach h)
  obtain ⟨hst, gp, hgp, hval, hcase⟩ := applyMove_ok_inv h
  have hprog : s'.status ≠ GameStatus.OVER →
      s'.status = GameStatus.IN_PROGRESS := by
    intro hnov
    rcases hcase with ⟨m, hm, hne, rfl⟩ | ⟨hm, rfl⟩
    · exact hst
    · by_cases hend : gameEndCond (checkForWins
          { s with moveCount := s.moveCount + 1
                   moves := s.moves ++ [⟨b, r, c, gp⟩] }) = true
      · exact absurd (checkForGameEnding_status_of_true hend) hnov
      · rw [Bool.not_eq_true] at hend
        rw [checkForGameEnding_of_false hend]
        exact hst
  refine ⟨?_, ?_, hprog⟩
  · constructor
    · intro hov
      rcases hcase with ⟨m, hm, hne, rfl⟩ | ⟨hm, rfl⟩
      · exfalso
        have h2 : s.status = GameStatus.OVER := hov
        rw [hst] at h2
        exact absurd h2 (by decide)
      · by_cases hend : gameEndCond (checkForWins
            { s with moveCount := s.moveCount + 1
                     moves := s.moves ++ [⟨b, r, c, gp⟩] }) = true
        · refine (gameEndCond_iff hcd').mp ?_
          rw [gameEndCond_checkForGameEnding]
          exact hend
        · exfalso
          rw [Bool.not_eq_true] at hend
          rw [checkForGameEnding_of_false hend] at hov
          have h2 : s.status = GameStatus.OVER := hov
          rw [hst] at h2
          exact absurd h2 (by decide)
    · intro hcond
      by_contra hnov
      have hip2 : s'.status = GameStatus.IN_PROGRESS := by
        rcases hcase with ⟨m, hm, hne, rfl⟩ | ⟨hm, rfl⟩
        · exact hst
        · by_cases hend : gameEndCond (checkForWins
              { s with moveCount := s.moveCount + 1
                       moves := s.moves ++ [⟨b, r, c, gp⟩] }) = true
          · exact absurd (checkForGameEnding_status_of_true hend) hnov
          · rw [Bool.not_eq_true] at hend
            rw [checkForGameEnding_of_false hend]
            exact hst
      have hfalse := hip' hip2
      have htrue := (gameEndCond_iff hcd').mpr hcond
      rw [htrue] at hfalse
      simp at hfalse
  · intro hov
    rcases hcase with ⟨m, hm, hne, rfl⟩ | ⟨hm, rfl⟩
    · exfalso
      have h2 : s.status = GameStatus.OVER := hov
      rw [hst] at h2
      exact absurd h2 (by decide)
    · by_cases hend : gameEndCond (checkForWins
          { s with moveCount := s.moveCount + 1
                   moves := s.moves ++ [⟨b, r, c, gp⟩] }) = true
      · have hsum : (checkForWins
            { s with moveCount := s.moveCount + 1
                     moves := s.moves ++ [⟨b, r, c, gp⟩] }).xScore +
            (checkForWins
            { s with moveCount := s.moveCount + 1
                     moves := s.moves ++ [⟨b, r, c, gp⟩] }).oScore ≤ 3 :=
          winsOf_sum_le _
        have hwin := checkForGameEnding_winner_of_true hsum hend
        obtain ⟨hcx, hco, -, -, -, hcxs, hcos⟩ := checkForGameEnding_fields
          (checkForWins { s with moveCount := s.moveCount + 1
                                 moves := s.moves ++ [⟨b, r, c, gp⟩] })
        refine ⟨?_, ?_, ?_⟩
        · intro hlt
          rw [hcxs, hcos] at hlt
          rw [hcx]
          exact hwin.1 hlt
        · intro hlt
          rw [hcxs, hcos] at hlt
          rw [hco]
          exact hwin.2.1 hlt
        · intro heq
          rw [hcxs, hcos] at heq
          exact hwin.2.2 heq
      · exfalso
        rw [Bool.not_eq_true] at hend
        rw [checkForGameEnding_of_false hend] at hov
        have h2 : s.status = GameStatus.OVER := hov
        rw [hst] at h2
        exact absurd h2 (by decide)

/-- C2 (amended): on every reachable `IN_PROGRESS` state, an attempt by
the seated piece whose parity does not match `attemptCount mod 2` fails —
with `OutOfTurn` whenever the board-won and own-cell checks pass
(otherwise with the board-position error, which is checked first); every
accepted attempt increments the attempt counter by exactly 1, and every
rejected attempt leaves the state, hence the counter, unchanged. -/
theorem C2_turn_parity (s : QState) (hreach : Reachable s) :
    (∀ (pid : PlayerID) (b : QBoard) (r c : Fin 3) (gp : Piece),
      s.status = GameStatus.IN_PROGRESS →
      resolvePiece s pid = some gp →
      (gp = Piece.X ∧ s.moveCount % 2 = 1 ∨
        gp = Piece.O ∧ s.moveCount % 2 = 0) →
      (∃ e, applyMove s pid b r c = Except.error (e, s)) ∧
      (isBoardWon b s.moves = false →
        s.moves.find? (ownMatch gp b r c) = none →
        applyMove s pid b r c =
          Except.error (GameError.MOVE_NOT_YOUR_TURN, s))) ∧
    (∀ (pid : PlayerID) (b : QBoard) (r c : Fin 3) (s' : QState),
      applyMove s pid b r c = Except.ok s' →
      s'.moveCount = s.moveCount + 1) ∧
    (∀ (pid : PlayerID) (b : QBoard) (r c : Fin 3) (e : GameError)
      (t : QState),
      applyMove s pid b r c = Except.error (e, t) → t = s) := by
  refine ⟨?_, ?_, ?_⟩
  · intro pid b r c gp hst hgp hturn
    constructor
    · by_cases hwon : isBoardWon b s.moves = true
      · exact ⟨GameError.BOARD_POSITION_NOT_EMPTY,
          applyMove_error_of_validate hst hgp
            (validateMove_boardWon hst hgp hwon)⟩
      · rw [Bool.not_eq_true] at hwon
        by_cases hown : (s.moves.find? (ownMatch gp b r c)).isSome = true
        · exact ⟨GameError.BOARD_POSITION_NOT_EMPTY,
            applyMove_error_of_validate hst hgp
              (validateMove_ownCell hst hgp hwon hown)⟩
        · have hown' : s.moves.find? (ownMatch gp b r c) = none :=
            Option.not_isSome_iff_eq_none.mp hown
          exact ⟨GameError.MOVE_NOT_YOUR_TURN,
            applyMove_error_of_validate hst hgp
              (validateMove_some_turn hst hgp hwon hown' hturn)⟩
    · intro hwon hown
      exact applyMove_error_of_validate hst hgp
        (validateMove_some_turn hst hgp hwon hown hturn)
  · intro pid b r c s' h
    obtain ⟨hst, gp, hgp, hval, hcase⟩ := applyMove_ok_inv h
    rcases hcase with ⟨m, hm, hne, rfl⟩ | ⟨hm, rfl⟩
    · rfl
    · obtain ⟨-, -, -, -, hcmc, -, -⟩ := checkForGameEnding_fields
        (checkForWins { s with moveCount := s.moveCount + 1
                               moves := s.moves ++ [⟨b, r, c, gp⟩] })
      rw [hcmc]
      rfl
  · intro pid b r c e t h
    exact applyMove_error_state h

/-- C3 (amended): on an `IN_PROGRESS` state, an attempt by a seated
player, in turn, on a board that is not already won, at a cell where only
the opposing piece has a recorded move, succeeds as a collision: no move
is appended, the attempt counter increments by 1, the target `revealed`
cell is set `true` and no other `revealed` cell changes. -/
theorem C3_collision (s : QState) (pid : PlayerID) (b : QBoard)
    (r c : Fin 3) (gp : Piece) (m : QMove)
    (hst : s.status = GameStatus.IN_PROGRESS)
    (hgp : resolvePiece s pid = some gp)
    (hwon : isBoardWon b s.moves = false)
    (hown : s.moves.find? (ownMatch gp b r c) = none)
    (hturn : ¬(gp = Piece.X ∧ s.moveCount % 2 = 1) ∧
      ¬(gp = Piece.O ∧ s.moveCount % 2 = 0))
    (hcell : s.moves.find? (cellMatch b r c) = some m) :
    m.gamePiece ≠ gp ∧
    applyMove s pid b r c = Except.ok
      { s with moveCount := s.moveCount + 1
               publiclyVisible := setRevealed s.publiclyVisible b r c } ∧
    setRevealed s.publiclyVisible b r c b r c = true ∧
    ∀ (b' : QBoard) (r' c' : Fin 3), ¬(b' = b ∧ r' = r ∧ c' = c) →
      setRevealed s.publiclyVisible b r c b' r' c' =
        s.publiclyVisible b' r' c' := by
  have hne : m.gamePiece ≠ gp := by
    intro he
    have hmem := List.mem_of_find?_eq_some hcell
    have hcm := List.find?_some hcell
    rw [cellMatch, decide_eq_true_eq] at hcm
    have hsome : (s.moves.find? (ownMatch gp b r c)).isSome = true := by
      rw [List.find?_isSome]
      refine ⟨m, hmem, ?_⟩
      rw [ownMatch, decide_eq_true_eq]
      exact ⟨hcm.1, hcm.2.1, hcm.2.2, he⟩
    rw [hown] at hsome
    simp at hsome
  have hval : validateMove s pid b r c = none := by
    unfold validateMove
    rw [if_neg (by simp [hst]), hgp]
    dsimp only
    rw [if_neg (by simp [hwon]), if_neg (by simp [hown]),
      if_neg hturn.1, if_neg hturn.2]
  refine ⟨hne, ?_, ?_, ?_⟩
  · unfold applyMove
    rw [if_neg (by simp [hst]), hgp]
    dsimp only
    rw [hval]
    dsimp only
    rw [hcell]
    dsimp only
    rw [if_neg hne]
  · rw [setRevealed]
    simp
  · intro b' r' c' hne'
    rw [setRevealed, if_neg hne']

/-- C4 (amended): turn order is checked last in `_validateMove`, so the
board-won and own-cell errors take precedence regardless of turn: a seated
player moving on an already-won board receives the board-position error
even when out of turn, and `OutOfTurn` arises only when the board is not
won and the player holds no recorded move at the target cell. -/
theorem C4_validation_order (s : QState) (pid : PlayerID) (b : QBoard)
    (r c : Fin 3) (gp : Piece)
    (hst : s.status = GameStatus.IN_PROGRESS)
    (hgp : resolvePiece s pid = some gp) :
    (isBoardWon b s.moves = true →
      applyMove s pid b r c =
        Except.error (GameError.BOARD_POSITION_NOT_EMPTY, s)) ∧
    (∀ t, applyMove s pid b r c =
        Except.error (GameError.MOVE_NOT_YOUR_TURN, t) →
      isBoardWon b s.moves = false ∧
      s.moves.find? (ownMatch gp b r c) = none) := by
  constructor
  · intro hwon
    exact applyMove_error_of_validate hst hgp
      (validateMove_boardWon hst hgp hwon)
  · intro t h
    have hv := applyMove_turn_error_inv h
    obtain ⟨hwon, gp', hgp', hown⟩ := validateMove_turn_error_inv hv
    rw [hgp] at hgp'
    injection hgp' with he
    subst he
    exact ⟨hwon, hown⟩

/-- C5: whenever a join fills the second seat on a reachable state, the
status moves from `WAITING_TO_START` to `IN_PROGRESS` and the attempt
counter is 0 at that moment. -/
theorem C5_join_starts (s : QState) (pid : PlayerID) (s' : QState)
    (hreach : Reachable s) (h : joinGame s pid = Except.ok s')
    (hboth : s'.x ≠ none ∧ s'.o ≠ none) :
    s.status = GameStatus.WAITING_TO_START ∧
    s'.status = GameStatus.IN_PROGRESS ∧ s'.moveCount = 0 := by
  obtain ⟨-, -, -, hw, hnw, -⟩ := reachable_inv hreach
  obtain ⟨-, hcase⟩ := joinGame_ok_inv h
  rcases hcase with ⟨hx, ho, rfl⟩ | ⟨hx, ho, rfl⟩ | ⟨hx, ho, rfl⟩
  · exact absurd ho hboth.2
  · exfalso
    by_cases hst : s.status = GameStatus.WAITING_TO_START
    · exact ho (hw hst).1
    · exact (hnw hst).1 hx
  · have hst : s.status = GameStatus.WAITING_TO_START := by
      by_contra hne
      exact (hnw hne).2 ho
    exact ⟨hst, rfl, (hw hst).2.2⟩

/-- C6: `applyMove` is atomic — every failing call leaves the match state
exactly as it was (the state carried by the thrown error is the entry
state). -/
theorem C6_atomic (s : QState) (pid : PlayerID) (b : QBoard) (r c : Fin 3)
    (e : GameError) (t : QState)
    (h : applyMove s pid b r c = Except.error (e, t)) : t = s :=
  applyMove_error_state h

/-- C7: `leave` by an unseated player fails with the not-in-game error;
leave when seat O was never filled resets the match to the constructor
state; leave when both seats are filled makes the status `OVER` with the
remaining player as winner, and every subsequent `applyMove`, from that
state or any state evolved from it, fails with the not-in-progress
error. -/
theorem C7_leave (s : QState) (pid : PlayerID) (hreach : Reachable s) :
    ((s.x ≠ some pid ∧ s.o ≠ some pid) →
      leaveGame s pid = Except.error (GameError.PLAYER_NOT_IN_GAME, s)) ∧
    ((s.x = some pid ∨ s.o = some pid) → s.o = none →
      leaveGame s pid = Except.ok initialState) ∧
    ((s.x = some pid ∨ s.o = some pid) → s.o ≠ none →
      ∃ s', leaveGame s pid = Except.ok s' ∧
        s'.status = GameStatus.OVER ∧
        s'.winner = (if s.x = some pid then s.o else s.x) ∧
        ∀ (t : QState) (pid' : PlayerID) (b : QBoard) (r c : Fin 3),
          ReachFrom s' t →
          applyMove t pid' b r c =
            Except.error (GameError.GAME_NOT_IN_PROGRESS, t)) := by
  obtain ⟨-, -, -, hw, hnw, -⟩ := reachable_inv hreach
  refine ⟨?_, ?_, ?_⟩
  · intro hns
    unfold leaveGame
    rw [if_pos hns]
  · intro hseat ho
    unfold leaveGame
    rw [if_neg (by tauto), if_pos ho]
    rfl
  · intro hseat ho
    refine ⟨{ s with status := GameStatus.OVER
                     winner := if s.x = some pid then s.o else s.x },
      ?_, rfl, rfl, ?_⟩
    · unfold leaveGame
      rw [if_neg (by tauto), if_neg ho]
    · intro t pid' b r c hrf
      have hx : s.x ≠ none := by
        rcases hseat with hxp | hop
        · rw [hxp]
          simp
        · by_cases hst : s.status = GameStatus.WAITING_TO_START
          · exact absurd (hw hst).1 ho
          · exact (hnw hst).1
      have hlock := over_locked hrf ⟨rfl, hx, ho⟩
      exact applyMove_not_in_progress (by rw [hlock.1]; decide)

/-- C8: on every reachable state, the two scores sum to at most 3 and each
equals the number of boards won by that piece as computed by the Board
Evaluator from the recorded moves alone. -/
theorem C8_scores (s : QState) (hreach : Reachable s) :
    s.xScore + s.oScore ≤ 3 ∧
    s.xScore = winsOf Piece.X s.moves ∧
    s.oScore = winsOf Piece.O s.moves := by
  obtain ⟨hxs, hos, -, -, -, -⟩ := reachable_inv hreach
  refine ⟨?_, hxs, hos⟩
  rw [hxs, hos]
  exact winsOf_sum_le s.moves

/-- C9: two reachable states that agree on the seats, status, winner,
scores, revealed grids and on the moves visible to a given player (their
own moves plus moves on revealed squares) — i.e. that differ only in the
opponent's unrevealed placements — produce the same observable view for
that player. -/
theorem C9_view_no_leak (s1 s2 : QState) (ourID : PlayerID)
    (h1 : Reachable s1) (h2 : Reachable s2)
    (hx : s1.x = s2.x) (ho : s1.o = s2.o) (hst : s1.status = s2.status)
    (hw : s1.winner = s2.winner) (hxs : s1.xScore = s2.xScore)
    (hos : s1.oScore = s2.oScore)
    (hpv : s1.publiclyVisible = s2.publiclyVisible)
    (hvm : visibleMovesFor s1 ourID = visibleMovesFor s2 ourID) :
    playerView s1 ourID = playerView s2 ourID := by
  rw [playerView, playerView, displayBoards_congr hx ho hpv hvm,
    hx, ho, hst, hw, hxs, hos]

/-- C10: on every reachable state, at most one recorded move exists at
each (board, row, col) cell, and consequently the Board Evaluator's grid
holds at each cell exactly the piece of the first recorded move there. -/
theorem C10_cell_unique (s : QState) (hreach : Reachable s) :
    cellsDistinct s.moves ∧
    ∀ (b : QBoard) (r c : Fin 3),
      fillGrid (boardMovesOf b s.moves) r c =
        Option.map QMove.gamePiece (s.moves.find? (cellMatch b r c)) := by
  obtain ⟨-, -, hcd, -, -, -⟩ := reachable_inv hreach
  exact ⟨hcd, fun b r c => fillGrid_eq_first hcd b r c⟩

/-! ### Reachability of the concrete histories -/

theorem reachable_gJ1 : Reachable gJ1 :=
  Reachable.join initialState gJ1 "p1" Reachable.init rfl

theorem reachable_gStart : Reachable gStart :=
  Reachable.join gJ1 gStart "p2" reachable_gJ1 rfl

theorem reachable_gW1 : Reachable gW1 :=
  Reachable.move gStart gW1 "p1" QBoard.A 0 0 reachable_gStart rfl

theorem reachable_gW2 : Reachable gW2 :=
  Reachable.move gW1 gW2 "p2" QBoard.B 0 0 reachable_gW1 rfl

theorem reachable_gW3 : Reachable gW3 :=
  Reachable.move gW2 gW3 "p1" QBoard.A 0 1 reachable_gW2 rfl

theorem reachable_gW4 : Reachable gW4 :=
  Reachable.move gW3 gW4 "p2" QBoard.B 0 1 reachable_gW3 rfl

theorem reachable_gW5 : Reachable gW5 :=
  Reachable.move gW4 gW5 "p1" QBoard.A 0 2 reachable_gW4 rfl

theorem reachable_gW6 : Reachable gW6 :=
  Reachable.move gW5 gW6 "p2" QBoard.C 0 0 reachable_gW5 rfl

theorem reachable_gW7 : Reachable gW7 :=
  Reachable.move gW6 gW7 "p1" QBoard.B 1 0 reachable_gW6 rfl

theorem reachable_gW8 : Reachable gW8 :=
  Reachable.move gW7 gW8 "p2" QBoard.C 0 1 reachable_gW7 rfl

theorem reachable_gW9 : Reachable gW9 :=
  Reachable.move gW8 gW9 "p1" QBoard.B 1 1 reachable_gW8 rfl

theorem reachable_gW10 : Reachable gW10 :=
  Reachable.move gW9 gW10 "p2" QBoard.C 0 2 reachable_gW9 rfl

theorem reachable_gAlt2 : Reachable gAlt2 :=
  Reachable.move gW1 gAlt2 "p2" QBoard.B 0 1 reachable_gW1 rfl

/-! ### Counterexamples and witnesses -/

/-- C1 witness: the 11th move of the test game (X completes board B's
middle row after winning board A) is accepted; the theorem then gives the
ending characterization at the resulting state. -/
theorem C1_game_ending_witness :
    ((stepMove gW10 "p1" QBoard.B 1 2).status = GameStatus.OVER ↔
      endingCondition (stepMove gW10 "p1" QBoard.B 1 2)) ∧
    ((stepMove gW10 "p1" QBoard.B 1 2).status = GameStatus.OVER →
      winnerIsHigher (stepMove gW10 "p1" QBoard.B 1 2)) ∧
    ((stepMove gW10 "p1" QBoard.B 1 2).status ≠ GameStatus.OVER →
      (stepMove gW10 "p1" QBoard.B 1 2).status =
        GameStatus.IN_PROGRESS) :=
  C1_game_ending gW10 "p1" QBoard.B 1 2
    (stepMove gW10 "p1" QBoard.B 1 2) reachable_gW10 rfl

/-- C2 counterexample: at the reachable state `gW1` it is O's turn
(`attemptCount = 1`), yet X's out-of-turn attempt on its own recorded
cell A(0,0) fails with the board-position error, not with
`MOVE_NOT_YOUR_TURN` as the claim states. -/
theorem C2_counterexample :
    Reachable gW1 ∧ gW1.status = GameStatus.IN_PROGRESS ∧
    resolvePiece gW1 "p1" = some Piece.X ∧ gW1.moveCount % 2 = 1 ∧
    applyMove gW1 "p1" QBoard.A 0 0 =
      Except.error (GameError.BOARD_POSITION_NOT_EMPTY, gW1) ∧
    GameError.BOARD_POSITION_NOT_EMPTY ≠ GameError.MOVE_NOT_YOUR_TURN :=
  ⟨reachable_gW1, rfl, rfl, rfl, rfl, by decide⟩

/-- C2 witness: X's out-of-turn attempt at the empty cell B(1,1) of an
unwon board fails with `MOVE_NOT_YOUR_TURN` and leaves the state
unchanged. -/
theorem C2_turn_parity_witness :
    gW1.status = GameStatus.IN_PROGRESS ∧
    resolvePiece gW1 "p1" = some Piece.X ∧ gW1.moveCount % 2 = 1 ∧
    applyMove gW1 "p1" QBoard.B 1 1 =
      Except.error (GameError.MOVE_NOT_YOUR_TURN, gW1) := by
  refine ⟨rfl, rfl, rfl, ?_⟩
  exact ((C2_turn_parity gW1 reachable_gW1).1 "p1" QBoard.B 1 1 Piece.X
    rfl rfl (Or.inl ⟨rfl, rfl⟩)).2 rfl rfl

/-- C3 counterexample: at the reachable state `gW2` the cell A(0,0) holds
only the opposing piece for seated player "p2", but it is not p2's turn,
so the attempt fails with `MOVE_NOT_YOUR_TURN` instead of succeeding as a
collision as the claim states. -/
theorem C3_counterexample :
    Reachable gW2 ∧ gW2.status = GameStatus.IN_PROGRESS ∧
    gW2.o = some "p2" ∧
    gW2.moves.find? (cellMatch QBoard.A 0 0) =
      some ⟨QBoard.A, 0, 0, Piece.X⟩ ∧
    gW2.moves.find? (ownMatch Piece.O QBoard.A 0 0) = none ∧
    applyMove gW2 "p2" QBoard.A 0 0 =
      Except.error (GameError.MOVE_NOT_YOUR_TURN, gW2) :=
  ⟨reachable_gW2, rfl, rfl, rfl, rfl, rfl⟩

/-- C3 witness: X, in turn at `gW2`, attempts B(0,0), which holds only
O's piece: a collision that reveals exactly that cell and consumes the
turn. -/
theorem C3_collision_witness :
    (⟨QBoard.B, 0, 0, Piece.O⟩ : QMove).gamePiece ≠ Piece.X ∧
    applyMove gW2 "p1" QBoard.B 0 0 = Except.ok
      { gW2 with
          moveCount := gW2.moveCount + 1
          publiclyVisible :=
            setRevealed gW2.publiclyVisible QBoard.B 0 0 } ∧
    setRevealed gW2.publiclyVisible QBoard.B 0 0 QBoard.B 0 0 = true ∧
    ∀ (b' : QBoard) (r' c' : Fin 3),
      ¬(b' = QBoard.B ∧ r' = 0 ∧ c' = 0) →
      setRevealed gW2.publiclyVisible QBoard.B 0 0 b' r' c' =
        gW2.publiclyVisible b' r' c' :=
  C3_collision gW2 "p1" QBoard.B 0 0 Piece.X ⟨QBoard.B, 0, 0, Piece.O⟩
    rfl rfl rfl rfl (by decide) rfl

/-- C4 counterexample: at the reachable state `gW5` board A is won and it
is O's turn; X's out-of-turn attempt on board A fails with the
board-position error (`BoardAlreadyWon`), not with `OutOfTurn` as the
claim states. -/
theorem C4_counterexample :
    Reachable gW5 ∧ gW5.status = GameStatus.IN_PROGRESS ∧
    resolvePiece gW5 "p1" = some Piece.X ∧
    isBoardWon QBoard.A gW5.moves = true ∧ gW5.moveCount % 2 = 1 ∧
    applyMove gW5 "p1" QBoard.A 1 0 =
      Except.error (GameError.BOARD_POSITION_NOT_EMPTY, gW5) ∧
    GameError.BOARD_POSITION_NOT_EMPTY ≠ GameError.MOVE_NOT_YOUR_TURN :=
  ⟨reachable_gW5, rfl, rfl, rfl, rfl, rfl, by decide⟩

/-- C4 witness: at `gW5` (board A won, O's turn), X's attempt on board A
receives the board-position error, and any `MOVE_NOT_YOUR_TURN` outcome
would require the board-won and own-cell checks to pass. -/
theorem C4_validation_order_witness :
    (isBoardWon QBoard.A gW5.moves = true →
      applyMove gW5 "p1" QBoard.A 1 0 =
        Except.error (GameError.BOARD_POSITION_NOT_EMPTY, gW5)) ∧
    (∀ t, applyMove gW5 "p1" QBoard.A 1 0 =
        Except.error (GameError.MOVE_NOT_YOUR_TURN, t) →
      isBoardWon QBoard.A gW5.moves = false ∧
      gW5.moves.find? (ownMatch Piece.X QBoard.A 1 0) = none) :=
  C4_validation_order gW5 "p1" QBoard.A 1 0 Piece.X rfl rfl

/-- C5 witness: the join that seats "p2" moves the fresh match from
`WAITING_TO_START` to `IN_PROGRESS` with the attempt counter at 0. -/
theorem C5_join_starts_witness :
    gJ1.status = GameStatus.WAITING_TO_START ∧
    gStart.status = GameStatus.IN_PROGRESS ∧ gStart.moveCount = 0 :=
  C5_join_starts gJ1 "p2" gStart reachable_gJ1 rfl ⟨by decide, by decide⟩

/-- C6 witness: the state left behind by X's failing out-of-turn call at
`gW1` is exactly `gW1`. -/
theorem C6_atomic_witness : stepMove gW1 "p1" QBoard.A 0 1 = gW1 :=
  C6_atomic gW1 "p1" QBoard.A 0 1 GameError.MOVE_NOT_YOUR_TURN
    (stepMove gW1 "p1" QBoard.A 0 1) rfl

/-- C7 witness: leaving a half-filled match resets it to the constructor
state, and leaving the running match `gStart` forfeits it to "p2", after
which `applyMove` fails with the not-in-progress error. -/
theorem C7_leave_witness :
    leaveGame gJ1 "p1" = Except.ok initialState ∧
    leaveGame gStart "p1" = Except.ok gForfeit ∧
    gForfeit.status = GameStatus.OVER ∧
    gForfeit.winner = some "p2" ∧
    applyMove gForfeit "p2" QBoard.A 0 0 =
      Except.error (GameError.GAME_NOT_IN_PROGRESS, gForfeit) := by
  obtain ⟨s', h1, h2, h3, h4⟩ :=
    (C7_leave gStart "p1" reachable_gStart).2.2 (Or.inl rfl) (by decide)
  have hs' : s' = gForfeit := by
    have h5 := h1.symm.trans (rfl : leaveGame gStart "p1" = Except.ok gForfeit)
    exact (Except.ok.injEq _ _).mp h5
  subst hs'
  refine ⟨(C7_leave gJ1 "p1" reachable_gJ1).2.1 (Or.inl rfl) rfl,
    h1, h2, ?_, h4 gForfeit "p2" QBoard.A 0 0 ReachFrom.refl⟩
  exact h3.trans (by decide)

/-- C8 witness: at `gW5` (board A won by X) the exposed scores are 1 and
0, re-derived from the recorded moves, and sum below 3. -/
theorem C8_scores_witness :
    gW5.xScore + gW5.oScore ≤ 3 ∧
    gW5.xScore = winsOf Piece.X gW5.moves ∧
    gW5.oScore = winsOf Piece.O gW5.moves :=
  C8_scores gW5 reachable_gW5

/-- C9 witness: `gW2` and `gAlt2` differ only in O's unrevealed placement
(B(0,0) versus B(0,1)), and X's observable view of the two states is
identical. -/
theorem C9_view_no_leak_witness :
    gW2.moves ≠ gAlt2.moves ∧
    playerView gW2 "p1" = playerView gAlt2 "p1" :=
  ⟨by decide, C9_view_no_leak gW2 gAlt2 "p1" reachable_gW2 reachable_gAlt2
    rfl rfl rfl rfl rfl rfl rfl rfl⟩

/-- C10 witness: the moves of `gW5` occupy pairwise distinct cells, and
board A's grid holds at (0,0) the piece of the first recorded move
there. -/
theorem C10_cell_unique_witness :
    cellsDistinct gW5.moves ∧
    fillGrid (boardMovesOf QBoard.A gW5.moves) 0 0 =
      Option.map QMove.gamePiece
        (gW5.moves.find? (cellMatch QBoard.A 0 0)) :=
  ⟨(C10_cell_unique gW5 reachable_gW5).1,
    (C10_cell_unique gW5 reachable_gW5).2 QBoard.A 0 0⟩

end QuantumTicTacToe
